import Mathlib

/-!
# kern_bin_db: address resolution and write serialisation

A shallow embedding of `addr2line.go` and `strip.go`.

* Go strings are Lean strings (sequences of code points); the only string
  algorithm of the program, `strings.ReplaceAll` with the ASCII pattern
  `"sym."`, behaves the same on bytes and on code points.
* Pointers (`*sql.DB`, `*sql.Stmt`) are optional handles, `none` being `nil`.
* The symbolizer (`addr2line.Addr2line`) is an external process: it is a
  state of an arbitrary type together with a `Resolve` transition.
* The functions of Go's standard library the program calls (`fmt.Sprintf`,
  `filepath.Clean`) are fields of a `Lib` record; `goLib` is a model of them.
* Calls that leave the program (mutex, symbolizer, database primitives) are
  recorded, in order, as a list of events.
* The channel is the FIFO list of the items sent on it; the consumer is run
  on the list of the items it dequeues.
-/

namespace KernBinDb

/-! ## Go standard library -/

/-- Operand of `fmt.Sprintf` and element of `[]any`. -/
inductive GoValue where
  | str (s : String)
  | int (i : Int)
  deriving DecidableEq, Repr

/-- Scanning loop of `strings.Replace` for a non-empty `old`: `skip` counts the
characters of the occurrence just matched that are still to be dropped. -/
def replaceAux (old new : List Char) : Nat → List Char → List Char
  | _, [] => []
  | skip + 1, _ :: cs => replaceAux old new skip cs
  | 0, c :: cs =>
    if old.isPrefixOf (c :: cs) then new ++ replaceAux old new (old.length - 1) cs
    else c :: replaceAux old new 0 cs

/-- Go `strings.ReplaceAll(s, old, new)`: every non-overlapping instance of
`old`, found scanning from the left, is replaced by `new`; an empty `old`
matches before every character and at the end. -/
def ReplaceAll (s old new : String) : String :=
  if old = new then s
  else if old.data = [] then ⟨(s.data.map fun c => new.data ++ [c]).flatten ++ new.data⟩
  else ⟨replaceAux old.data new.data 0 s.data⟩

/-- Splits a path at every separator (the pieces may be empty). -/
def splitPath : List Char → List (List Char)
  | [] => [[]]
  | c :: cs =>
    if c = '/' then [] :: splitPath cs
    else
      match splitPath cs with
      | [] => [[c]]
      | h :: t => (c :: h) :: t

/-- One path element of `filepath.Clean`; `out` holds the elements kept so far,
the last one first. -/
def cleanElem (rooted : Bool) (out : List (List Char)) (el : List Char) : List (List Char) :=
  if el = [] ∨ el = ['.'] then out
  else if el = ['.', '.'] then
    match out with
    | [] => if rooted then [] else [el]
    | top :: rest => if top = ['.', '.'] then el :: out else rest
  else el :: out

/-- Go `filepath.Clean` on a Unix path: empty and `.` elements are dropped,
`..` removes the element before it (at the root it is dropped, at the start of
a relative path it is kept), and the empty result is `.`. -/
def Clean (path : String) : String :=
  let rooted := path.data.head? = some '/'
  let out := ((splitPath path.data).foldl (cleanElem rooted) []).reverse
  let body := [Char.ofNat 47].intercalate out
  if rooted then ⟨'/' :: body⟩
  else if body = [] then "." else ⟨body⟩

/-- Decimal digits of a natural number, as `%d` prints them. -/
def decimal (n : Nat) : String := ⟨Nat.toDigits 10 n⟩

/-- Go `%d` (and `%v`) of an `int`. -/
def formatInt : Int → String
  | Int.ofNat n => decimal n
  | Int.negSucc n => "-" ++ decimal (n + 1)

/-- Go `%v` of an operand. -/
def formatValue : GoValue → String
  | .str s => s
  | .int i => formatInt i

/-- Go name of an operand's type, as the diagnostics of `fmt` print it. -/
def typeName : GoValue → String
  | .str _ => "string"
  | .int _ => "int"

/-- Go rendering `%!c(type=value)` of an operand under a verb that does not
apply to its type. -/
def badVerb (c : Char) (v : GoValue) : String :=
  "%!" ++ ⟨[c]⟩ ++ "(" ++ typeName v ++ "=" ++ formatValue v ++ ")"

/-- One verb of `fmt.Sprintf` applied to the next operand. -/
def formatVerb (c : Char) : Option GoValue → String
  | none => "%!" ++ ⟨[c]⟩ ++ "(MISSING)"
  | some v =>
    if c = 'v' then formatValue v
    else
      match v with
      | .str s => if c = 's' then s else badVerb c v
      | .int i => if c = 'd' then formatInt i else badVerb c v

/-- Go rendering of the operands no verb consumed. -/
def extraArgs : List GoValue → String
  | [] => ""
  | v :: vs =>
    "%!(EXTRA " ++ ", ".intercalate ((v :: vs).map fun a => typeName a ++ "=" ++ formatValue a)
      ++ ")"

/-- Scanning loop of `fmt.Sprintf` over the format. -/
def sprintfAux : List Char → List GoValue → String
  | [], args => extraArgs args
  | ['%'], args => "%!(NOVERB)" ++ extraArgs args
  | '%' :: '%' :: cs, args => "%" ++ sprintfAux cs args
  | '%' :: c :: cs, args => formatVerb c args.head? ++ sprintfAux cs args.tail
  | c :: cs, args => ⟨[c]⟩ ++ sprintfAux cs args

/-- Go `fmt.Sprintf` on the fragment of formats made of plain text, `%%` and
the verbs `%s`, `%d` and `%v` without flags, width or precision, with string
and `int` operands. -/
def Sprintf (format : String) (args : List GoValue) : String :=
  sprintfAux format.data args

/-- The functions of Go's standard library that the program calls with data
of its own. -/
structure Lib where
  Clean : String → String
  Sprintf : String → List GoValue → String

/-- The standard library as modelled above. -/
def goLib : Lib := ⟨Clean, Sprintf⟩

/-! ## addr2line.go -/

/-- Modelled from the spec: the declaration of `addr2line.Result`, which lives
in the symbolizer package; a candidate is a file path, a non-negative line
number and a function name. -/
structure Result where
  File : String
  Line : Nat
  Function : String
  deriving DecidableEq, Repr

/-- Handle behind a `*sql.DB`. -/
abbrev DBHandle := Nat

/-- Handle behind a `*sql.Stmt`. -/
abbrev StmtHandle := Nat

/-- Go `workloads`: one item of the queue. `Addr` is a `uint64`; the program
does no arithmetic on it. -/
structure workloads where
  Addr : Nat
  Name : String
  Query : String
  DB : Option DBHandle
  Statement : Option StmtHandle
  Args : List GoValue
  CloseStmt : Bool
  deriving DecidableEq, Repr

/-- The symbolizer behind `Context.a2l`: `Resolve` answers an address with the
candidates and an optional error, and moves the symbolizer to its next state. -/
structure Symbolizer (σ : Type) where
  Resolve : σ → Nat → (List Result × Option String) × σ

/-- What the consumer does outside itself, in program order. -/
inductive Event where
  | lock
  | unlock
  | resolve (addr : Nat)
  | insert (db : Option DBHandle) (query : String) (flag : Bool)
  | insert_prepared (stmt : Option StmtHandle) (args : List GoValue) (close : Bool)
  deriving DecidableEq, Repr

/-- The `for _, a := range rs` loop of `resolve_addr`. -/
def resolveLoop (lib : Lib) : List Result → String → String
  | [], res => res
  | a :: rs, _ =>
    resolveLoop lib rs (lib.Sprintf "%s:%d" [.str (lib.Clean a.File), .int a.Line])

/-- Go `resolve_addr`: the string for an address, the next state of the
symbolizer and the calls made. -/
def resolve_addr {σ : Type} (lib : Lib) (sym : Symbolizer σ) (a2l : σ) (address : Nat) :
    String × σ × List Event :=
  let res := ""
  let r := sym.Resolve a2l address
  let rs := r.1.1
  let res := if rs.length = 0 then "NONE" else res
  (resolveLoop lib rs res, r.2, [.lock, .resolve address, .unlock])

/-- The right-hand side of the comparison that guards the `break` of
`workload`: `strings.ReplaceAll(e.Name, "sym.", "")`. -/
def wantedFunction (name : String) : String := ReplaceAll name "sym." ""

/-- The `for _, a := range rs` loop of `workload`, with its `break`: the value
of `qready` after the loop and the number of iterations run. -/
def rangeLoop (lib : Lib) (e : workloads) : List Result → String → String × Nat
  | [], qready => (qready, 0)
  | a :: rs, _ =>
    let qready := lib.Sprintf e.Query [.str (lib.Clean a.File)]
    if a.Function = wantedFunction e.Name then (qready, 1)
    else
      let r := rangeLoop lib e rs qready
      (r.1, r.2 + 1)

/-- The variables of `workload` that outlive one turn of its loop: the state
of the symbolizer in the context and the local `qready`. The local `e` is
overwritten by the receive that starts every turn. -/
structure Consumer (σ : Type) where
  a2l : σ
  qready : String

/-- One turn of the `for` loop of `workload`, for the dequeued item `e`. -/
def workloadBody {σ : Type} (lib : Lib) (sym : Symbolizer σ) (e : workloads)
    (st : Consumer σ) : Consumer σ × List Event :=
  match e.Statement with
  | none =>
    if e.Name = "None" then
      (st, [.insert e.DB e.Query false])
    else
      let r := sym.Resolve st.a2l e.Addr
      let rs := r.1.1
      let qready := if rs.length = 0 then lib.Sprintf e.Query [.str "NONE"] else st.qready
      let qready := (rangeLoop lib e rs qready).1
      (⟨r.2, qready⟩, [.lock, .resolve e.Addr, .unlock, .insert e.DB qready false])
  | some _ =>
    (st, [.insert_prepared e.Statement e.Args e.CloseStmt])

/-- Go `workload`, run on the items it dequeues, in order; when they are
exhausted the consumer is blocked on the receive. -/
def workload {σ : Type} (lib : Lib) (sym : Symbolizer σ) :
    List workloads → Consumer σ → Consumer σ × List Event
  | [], st => (st, [])
  | e :: es, st =>
    let r := workloadBody lib sym e st
    let r2 := workload lib sym es r.1
    (r2.1, r.2 ++ r2.2)

/-- Go `spawn_query`: the channel after the send. -/
def spawn_query (db : Option DBHandle) (addr : Nat) (name : String)
    (addresses : List workloads) (query : String) : List workloads :=
  addresses ++ [⟨addr, name, query, db, none, [], false⟩]

/-- Go `spawn_stmt`: the channel after the send. -/
def spawn_stmt (db : Option DBHandle) (stmt : Option StmtHandle)
    (addresses : List workloads) (args : List GoValue) (closestmt : Bool) : List workloads :=
  addresses ++ [⟨0, "None", "", db, stmt, args, closestmt⟩]

/-! ## strip.go -/

/-- Go `exec.Command(name, arg...)`. -/
structure Cmd where
  Name : String
  Args : List String
  deriving DecidableEq, Repr

/-- The operating system as `strip` sees it: `LookPath` finds the executable
or fails, `Run` runs a command and returns its error, if any. -/
structure OS where
  LookPath : String → Except String String
  Run : Cmd → Option String

/-- Outcome of `strip`: the commands launched, in order, and the value it
panicked with, if it did. -/
structure StripOutcome where
  launched : List Cmd
  panicked : Option String
  deriving DecidableEq, Repr

/-- Go `strip`. -/
def strip (os : OS) (executable fn outfile : String) : StripOutcome :=
  match os.LookPath executable with
  | .error err => ⟨[], some err⟩
  | .ok _ =>
    let cmd : Cmd := ⟨executable, ["--strip-debug", fn, "-o", outfile]⟩
    match os.Run cmd with
    | some err => ⟨[cmd], some err⟩
    | none => ⟨[cmd], none⟩

/-! ## Reference definitions, from the specification -/

/-- The requested name with a leading `sym.` removed and nothing else changed. -/
def stripLeadingSym (n : String) : String :=
  if "sym.".data.isPrefixOf n.data then ⟨n.data.drop 4⟩ else n

/-- The specification of `resolve_to_string` on the candidates of an address:
`NONE` when there are none, else the last one as `<cleaned file>:<line>`. -/
def resolve_to_string_ref (clean : String → String) (rs : List Result) : String :=
  match rs.getLast? with
  | none => "NONE"
  | some a => clean a.File ++ ":" ++ decimal a.Line

/-- The database calls among the events. -/
def dbCalls : List Event → List Event
  | [] => []
  | .insert db q f :: evs => .insert db q f :: dbCalls evs
  | .insert_prepared s a c :: evs => .insert_prepared s a c :: dbCalls evs
  | _ :: evs => dbCalls evs

/-- The database call of an item, given the candidates the symbolizer answered
for its address (they are not looked at unless the item asks for a resolution). -/
def callOf (lib : Lib) (e : workloads) (rs : List Result) : Event :=
  match e.Statement with
  | some _ => .insert_prepared e.Statement e.Args e.CloseStmt
  | none =>
    if e.Name = "None" then .insert e.DB e.Query false
    else if rs = [] then .insert e.DB (lib.Sprintf e.Query [.str "NONE"]) false
    else .insert e.DB (rangeLoop lib e rs "").1 false

/-- The database calls a queue of items must give rise to, one per item and in
order, from the state of the symbolizer when the first is dequeued. -/
def expectedCalls {σ : Type} (lib : Lib) (sym : Symbolizer σ) : σ → List workloads → List Event
  | _, [] => []
  | s, e :: es =>
    let r := sym.Resolve s e.Addr
    callOf lib e r.1.1 ::
      expectedCalls lib sym (if e.Statement = none ∧ e.Name ≠ "None" then r.2 else s) es

/-- A symbolizer without state answering from a table. -/
def tableSym (table : List (Nat × List Result)) : Symbolizer Unit :=
  ⟨fun _ addr => (((table.lookup addr).getD [], none), ())⟩

/-! ## Concrete inputs -/

/-- Debug information mapping `0x1000` to two candidates of the same function. -/
def schedSym : Symbolizer Unit :=
  tableSym [(4096, [⟨"kernel/sched.c", 42, "schedule"⟩, ⟨"kernel/../kernel/core.c", 7, "schedule"⟩])]

/-- A resolution request for `sym.schedule` at `0x1000`. -/
def schedItem : workloads := ⟨4096, "sym.schedule", "insert '%s'", some 1, none, [], false⟩

/-- Debug information whose first candidate carries a `sym.` inside its name. -/
def innerSym : Symbolizer Unit :=
  tableSym [(8192, [⟨"a.c", 1, "x.sym.f"⟩, ⟨"b.c", 2, "g"⟩])]

/-- A resolution request whose name has a `sym.` that is not at its start. -/
def innerItem : workloads := ⟨8192, "x.sym.f", "insert '%s'", some 1, none, [], false⟩

/-- A resolution request for a name no candidate at `0x1000` carries. -/
def otherItem : workloads := ⟨4096, "sym.idle", "insert '%s'", some 1, none, [], false⟩

/-- A resolution request for `0x9999`, which the debug information does not cover. -/
def missingItem : workloads := ⟨39321, "sym.schedule", "insert '%s'", some 1, none, [], false⟩

/-- Debug information whose first candidate is called `x.f`. -/
def partSym : Symbolizer Unit :=
  tableSym [(12288, [⟨"a.c", 1, "x.f"⟩, ⟨"b.c", 2, "g"⟩])]

/-- A resolution request at `0x3000` for `x.sym.f`, a name no candidate carries. -/
def partItem : workloads := ⟨12288, "x.sym.f", "insert '%s'", some 1, none, [], false⟩

/-- The consumer before its first receive. -/
def startConsumer : Consumer Unit := ⟨(), ""⟩

/-! ## Removing every occurrence of a pattern -/

theorem replaceAux_skip (old new : List Char) :
    ∀ (l : List Char) (k : Nat), replaceAux old new k l = replaceAux old new 0 (l.drop k) := by
  intro l
  induction l with
  | nil => intro k; cases k <;> rfl
  | cons c cs ih =>
    intro k
    cases k with
    | zero => rfl
    | succ k => rw [replaceAux, ih k, List.drop_succ_cons]

theorem replaceAux_length_le (old : List Char) :
    ∀ (l : List Char) (k : Nat), (replaceAux old [] k l).length ≤ l.length := by
  intro l
  induction l with
  | nil => intro k; cases k <;> simp [replaceAux]
  | cons c cs ih =>
    intro k
    cases k with
    | succ k =>
      rw [replaceAux]
      exact Nat.le_succ_of_le (ih k)
    | zero =>
      rw [replaceAux]
      split
      · exact Nat.le_succ_of_le (by simpa using ih (old.length - 1))
      · simpa using ih 0

theorem replaceAux_length_lt (old : List Char) (hold : old ≠ []) :
    ∀ l : List Char, old <:+: l → (replaceAux old [] 0 l).length < l.length := by
  intro l
  induction l with
  | nil =>
    intro h
    exact absurd (List.eq_nil_of_infix_nil h) hold
  | cons c cs ih =>
    intro h
    rw [replaceAux]
    split
    · exact Nat.lt_succ_of_le (by simpa using replaceAux_length_le old cs (old.length - 1))
    · rename_i hp
      rcases List.infix_cons_iff.mp h with h1 | h2
      · exact absurd (List.isPrefixOf_iff_prefix.mpr h1) hp
      · simpa using ih h2

theorem replaceAux_eq_self_iff (old : List Char) (hold : old ≠ []) (l : List Char) :
    replaceAux old [] 0 l = l ↔ ¬ old <:+: l := by
  constructor
  · intro h hin
    have hlt := replaceAux_length_lt old hold l hin
    rw [h] at hlt
    exact Nat.lt_irrefl _ hlt
  · induction l with
    | nil => intro _; rfl
    | cons c cs ih =>
      intro h
      have hp : ¬ old.isPrefixOf (c :: cs) = true := fun hp =>
        h (List.IsPrefix.isInfix (List.isPrefixOf_iff_prefix.mp hp))
      have hcs : ¬ old <:+: cs := fun hin => h (List.infix_cons hin)
      rw [replaceAux, if_neg hp, ih hcs]

theorem replaceAux_of_isPrefixOf (old : List Char) (hold : old ≠ []) (l : List Char)
    (hp : old.isPrefixOf l = true) :
    replaceAux old [] 0 l = replaceAux old [] 0 (l.drop old.length) := by
  cases l with
  | nil =>
    cases old with
    | nil => exact absurd rfl hold
    | cons a as => simp [List.isPrefixOf] at hp
  | cons c cs =>
    cases old with
    | nil => exact absurd rfl hold
    | cons a as =>
      rw [replaceAux, if_pos hp, replaceAux_skip]
      simp

theorem wantedFunction_data (n : String) :
    (wantedFunction n).data = replaceAux ['s', 'y', 'm', '.'] [] 0 n.data := by
  unfold wantedFunction ReplaceAll
  rw [if_neg (by decide), if_neg (by decide)]

/-! ## The loop of `workload` -/

theorem rangeLoop_init (lib : Lib) (e : workloads) (rs : List Result) (q q' : String)
    (hne : rs ≠ []) : rangeLoop lib e rs q = rangeLoop lib e rs q' := by
  cases rs with
  | nil => exact absurd rfl hne
  | cons a rs => rfl

theorem rangeLoop_first_match (lib : Lib) (e : workloads) :
    ∀ (rs : List Result) (i : Nat) (a : Result) (q : String),
      rs[i]? = some a →
      (∀ j b, j < i → rs[j]? = some b → b.Function ≠ wantedFunction e.Name) →
      a.Function = wantedFunction e.Name →
      rangeLoop lib e rs q = (lib.Sprintf e.Query [.str (lib.Clean a.File)], i + 1) := by
  intro rs
  induction rs with
  | nil => intro i a q h; simp at h
  | cons c cs ih =>
    intro i a q h hbefore ha
    cases i with
    | zero =>
      simp only [List.getElem?_cons_zero, Option.some.injEq] at h
      subst h
      simp [rangeLoop, ha]
    | succ i =>
      simp only [List.getElem?_cons_succ] at h
      have hc : c.Function ≠ wantedFunction e.Name := hbefore 0 c (Nat.succ_pos i) (by simp)
      have hrest : ∀ j b, j < i → cs[j]? = some b → b.Function ≠ wantedFunction e.Name := by
        intro j b hj hb
        exact hbefore (j + 1) b (Nat.succ_lt_succ hj) (by simpa using hb)
      simp only [rangeLoop, if_neg hc]
      rw [ih i a _ h hrest ha]

theorem rangeLoop_last (lib : Lib) (e : workloads) :
    ∀ (rs : List Result) (q : String) (hne : rs ≠ []),
      (∀ b ∈ rs, b.Function ≠ wantedFunction e.Name) →
      rangeLoop lib e rs q
        = (lib.Sprintf e.Query [.str (lib.Clean (rs.getLast hne).File)], rs.length) := by
  intro rs
  induction rs with
  | nil => intro q hne; exact absurd rfl hne
  | cons a rs ih =>
    intro q hne hno
    have ha : a.Function ≠ wantedFunction e.Name := hno a (by simp)
    cases rs with
    | nil => simp [rangeLoop, ha]
    | cons b rs =>
      have hrest : ∀ c ∈ b :: rs, c.Function ≠ wantedFunction e.Name := by
        intro c hc
        exact hno c (List.mem_cons_of_mem a hc)
      simp only [rangeLoop, if_neg ha]
      have h := ih (lib.Sprintf e.Query [.str (lib.Clean a.File)]) (by simp) hrest
      simp only [rangeLoop] at h
      rw [h]
      simp

theorem workloadBody_resolution {σ : Type} (lib : Lib) (sym : Symbolizer σ) (e : workloads)
    (st : Consumer σ) (hs : e.Statement = none) (hn : e.Name ≠ "None") :
    workloadBody lib sym e st
      = (⟨(sym.Resolve st.a2l e.Addr).2,
          (rangeLoop lib e (sym.Resolve st.a2l e.Addr).1.1
            (if (sym.Resolve st.a2l e.Addr).1.1.length = 0
              then lib.Sprintf e.Query [.str "NONE"] else st.qready)).1⟩,
         [.lock, .resolve e.Addr, .unlock,
          .insert e.DB
            (rangeLoop lib e (sym.Resolve st.a2l e.Addr).1.1
              (if (sym.Resolve st.a2l e.Addr).1.1.length = 0
                then lib.Sprintf e.Query [.str "NONE"] else st.qready)).1 false]) := by
  simp [workloadBody, hs, hn]

theorem sprintf_file_line (p : String) (n : Nat) :
    Sprintf "%s:%d" [.str p, .int n] = p ++ ":" ++ decimal n := by
  show sprintfAux ['%', 's', ':', '%', 'd'] [.str p, .int (Int.ofNat n)] = _
  apply String.ext
  simp [sprintfAux, formatVerb, formatInt, extraArgs]

theorem resolveLoop_last (lib : Lib) :
    ∀ (rs : List Result) (res : String),
      resolveLoop lib rs res
        = match rs.getLast? with
          | none => res
          | some a => lib.Sprintf "%s:%d" [.str (lib.Clean a.File), .int a.Line] := by
  intro rs
  induction rs with
  | nil => intro res; rfl
  | cons a rs ih =>
    intro res
    rw [resolveLoop, ih]
    cases rs with
    | nil => rfl
    | cons b rs =>
      rw [List.getLast?_cons_cons, List.getLast?_eq_getLast (b :: rs) (List.cons_ne_nil b rs)]

theorem dbCalls_append (xs ys : List Event) : dbCalls (xs ++ ys) = dbCalls xs ++ dbCalls ys := by
  induction xs with
  | nil => rfl
  | cons x xs ih => cases x <;> simp [dbCalls, ih]

theorem workloadBody_call {σ : Type} (lib : Lib) (sym : Symbolizer σ) (e : workloads)
    (st : Consumer σ) :
    dbCalls (workloadBody lib sym e st).2 = [callOf lib e (sym.Resolve st.a2l e.Addr).1.1]
      ∧ (workloadBody lib sym e st).1.a2l
        = if e.Statement = none ∧ e.Name ≠ "None" then (sym.Resolve st.a2l e.Addr).2
          else st.a2l := by
  cases hs : e.Statement with
  | some h => simp [workloadBody, callOf, dbCalls, hs]
  | none =>
    by_cases hn : e.Name = "None"
    · simp [workloadBody, callOf, dbCalls, hs, hn]
    · rw [workloadBody_resolution lib sym e st hs hn]
      by_cases hrs : (sym.Resolve st.a2l e.Addr).1.1 = []
      · simp [callOf, dbCalls, hs, hn, hrs, rangeLoop]
      · have hlen : ¬ (sym.Resolve st.a2l e.Addr).1.1.length = 0 := by
          simpa [List.length_eq_zero] using hrs
        rw [if_neg hlen, rangeLoop_init lib e _ st.qready "" hrs]
        simp [callOf, dbCalls, hs, hn, hrs]

theorem workload_calls_eq {σ : Type} (lib : Lib) (sym : Symbolizer σ) :
    ∀ (items : List workloads) (st : Consumer σ),
      dbCalls (workload lib sym items st).2 = expectedCalls lib sym st.a2l items := by
  intro items
  induction items with
  | nil => intro st; rfl
  | cons e es ih =>
    intro st
    have h := workloadBody_call lib sym e st
    simp only [workload, expectedCalls, dbCalls_append, h.1, ih, h.2]
    rfl

theorem expectedCalls_length {σ : Type} (lib : Lib) (sym : Symbolizer σ) :
    ∀ (items : List workloads) (s : σ), (expectedCalls lib sym s items).length = items.length := by
  intro items
  induction items with
  | nil => intro s; rfl
  | cons e es ih => intro s; simp [expectedCalls, ih]

theorem workload_append {σ : Type} (lib : Lib) (sym : Symbolizer σ) :
    ∀ (xs ys : List workloads) (st : Consumer σ),
      workload lib sym (xs ++ ys) st
        = ((workload lib sym ys (workload lib sym xs st).1).1,
           (workload lib sym xs st).2 ++ (workload lib sym ys (workload lib sym xs st).1).2) := by
  intro xs
  induction xs with
  | nil => intro ys st; simp [workload]
  | cons x xs ih => intro ys st; simp [workload, ih]

/-! ## Resolution items -/

/-- C1, as stated, fails twice. At `0x1000` the candidate at index 1 carries the
requested name with its leading `sym.` stripped, yet the query is built from
the candidate at index 0, the first that does. At `0x2000` the candidate at
index 0 carries the requested name with its leading `sym.` stripped (the name
has none), yet the loop goes on and the query is built from the last
candidate: the comparison removes every `sym.` of the requested name. -/
theorem workload_any_match_counterexample :
    (schedItem.Statement = none ∧ schedItem.Name ≠ "None"
      ∧ (schedSym.Resolve startConsumer.a2l schedItem.Addr).1.1[1]?
          = some ⟨"kernel/../kernel/core.c", 7, "schedule"⟩
      ∧ "schedule" = stripLeadingSym schedItem.Name
      ∧ (workloadBody goLib schedSym schedItem startConsumer).2
          = [.lock, .resolve 4096, .unlock, .insert (some 1) "insert 'kernel/sched.c'" false]
      ∧ (workloadBody goLib schedSym schedItem startConsumer).2
          ≠ [.lock, .resolve 4096, .unlock,
              .insert schedItem.DB
                (goLib.Sprintf schedItem.Query [.str (goLib.Clean "kernel/../kernel/core.c")])
                false])
    ∧ (innerItem.Statement = none ∧ innerItem.Name ≠ "None"
      ∧ (innerSym.Resolve startConsumer.a2l innerItem.Addr).1.1[0]? = some ⟨"a.c", 1, "x.sym.f"⟩
      ∧ "x.sym.f" = stripLeadingSym innerItem.Name
      ∧ (workloadBody goLib innerSym innerItem startConsumer).2
          = [.lock, .resolve 8192, .unlock, .insert (some 1) "insert 'b.c'" false]
      ∧ (workloadBody goLib innerSym innerItem startConsumer).2
          ≠ [.lock, .resolve 8192, .unlock,
              .insert innerItem.DB (goLib.Sprintf innerItem.Query [.str (goLib.Clean "a.c")])
                false]
      ∧ (rangeLoop goLib innerItem
          (innerSym.Resolve startConsumer.a2l innerItem.Addr).1.1 "").2 = 2) := by
  decide

/-- C1 (amended): for a resolution item, if the candidate at index `i` is the
first whose `Function` equals the requested name with every `sym.` removed,
the query passed to the non-prepared primitive is the item's template
formatted with the cleaned `File` of that candidate, and the loop runs `i + 1`
iterations: no candidate after index `i` is examined. -/
theorem workload_first_match {σ : Type} (lib : Lib) (sym : Symbolizer σ) (e : workloads)
    (st : Consumer σ) (i : Nat) (a : Result)
    (hs : e.Statement = none) (hn : e.Name ≠ "None")
    (hi : (sym.Resolve st.a2l e.Addr).1.1[i]? = some a)
    (hbefore : ∀ j b, j < i → (sym.Resolve st.a2l e.Addr).1.1[j]? = some b →
      b.Function ≠ wantedFunction e.Name)
    (ha : a.Function = wantedFunction e.Name) :
    (workloadBody lib sym e st).2
        = [.lock, .resolve e.Addr, .unlock,
            .insert e.DB (lib.Sprintf e.Query [.str (lib.Clean a.File)]) false]
      ∧ ∀ q, (rangeLoop lib e (sym.Resolve st.a2l e.Addr).1.1 q).2 = i + 1 := by
  constructor
  · rw [workloadBody_resolution lib sym e st hs hn,
      rangeLoop_first_match lib e _ i a _ hi hbefore ha]
  · intro q
    rw [rangeLoop_first_match lib e _ i a q hi hbefore ha]

/-- Witness of C1 (amended): `sym.schedule` at `0x1000`, where both candidates
carry `schedule`; the first is used. -/
theorem workload_first_match_witness :
    (workloadBody goLib schedSym schedItem startConsumer).2
        = [.lock, .resolve schedItem.Addr, .unlock,
            .insert schedItem.DB
              (goLib.Sprintf schedItem.Query [.str (goLib.Clean "kernel/sched.c")]) false]
      ∧ ∀ q, (rangeLoop goLib schedItem
          (schedSym.Resolve startConsumer.a2l schedItem.Addr).1.1 q).2 = 0 + 1 :=
  workload_first_match goLib schedSym schedItem startConsumer 0 ⟨"kernel/sched.c", 42, "schedule"⟩
    (by decide) (by decide) (by decide) (fun j _ hj => absurd hj (Nat.not_lt_zero j))
    (by decide)

/-- C2, as stated, fails at `0x3000`: the requested name `x.sym.f` has no
leading `sym.`, so stripping it leaves the name as it is, and neither
candidate (`x.f`, `g`) carries that name; yet the comparison removes the inner
`sym.`, the candidate at index 0 matches, the loop stops after one iteration
and the query is built from the first candidate, not from the last. -/
theorem workload_no_match_counterexample :
    partItem.Statement = none ∧ partItem.Name ≠ "None"
      ∧ (partSym.Resolve startConsumer.a2l partItem.Addr).1.1
          = [⟨"a.c", 1, "x.f"⟩, ⟨"b.c", 2, "g"⟩]
      ∧ stripLeadingSym partItem.Name = "x.sym.f"
      ∧ (∀ b ∈ (partSym.Resolve startConsumer.a2l partItem.Addr).1.1,
          b.Function ≠ stripLeadingSym partItem.Name ∧ b.Function ≠ partItem.Name)
      ∧ (workloadBody goLib partSym partItem startConsumer).2
          = [.lock, .resolve 12288, .unlock, .insert (some 1) "insert 'a.c'" false]
      ∧ (workloadBody goLib partSym partItem startConsumer).2
          ≠ [.lock, .resolve 12288, .unlock,
              .insert partItem.DB (goLib.Sprintf partItem.Query [.str (goLib.Clean "b.c")])
                false]
      ∧ (rangeLoop goLib partItem
          (partSym.Resolve startConsumer.a2l partItem.Addr).1.1 "").2 = 1 := by
  decide

/-- C2 (amended): for a resolution item and a non-empty candidate sequence none
of whose `Function`s equals the requested name with every occurrence of `sym.`
removed, the query passed to the non-prepared primitive is the item's template
formatted with the cleaned `File` of the last candidate, not the first. -/
theorem workload_no_match {σ : Type} (lib : Lib) (sym : Symbolizer σ) (e : workloads)
    (st : Consumer σ) (hs : e.Statement = none) (hn : e.Name ≠ "None")
    (hne : (sym.Resolve st.a2l e.Addr).1.1 ≠ [])
    (hno : ∀ b ∈ (sym.Resolve st.a2l e.Addr).1.1, b.Function ≠ wantedFunction e.Name) :
    (workloadBody lib sym e st).2
      = [.lock, .resolve e.Addr, .unlock,
          .insert e.DB
            (lib.Sprintf e.Query
              [.str (lib.Clean ((sym.Resolve st.a2l e.Addr).1.1.getLast hne).File)]) false] := by
  rw [workloadBody_resolution lib sym e st hs hn, rangeLoop_last lib e _ _ hne hno]

/-- Witness of C2: `sym.idle` at `0x1000` matches neither candidate; the query
is built from the second and last one, whose path differs from the first. -/
theorem workload_no_match_witness :
    (workloadBody goLib schedSym otherItem startConsumer).2
        = [.lock, .resolve otherItem.Addr, .unlock,
            .insert otherItem.DB
              (goLib.Sprintf otherItem.Query
                [.str (goLib.Clean
                  ((schedSym.Resolve startConsumer.a2l otherItem.Addr).1.1.getLast
                    (by decide)).File)]) false]
      ∧ (workloadBody goLib schedSym otherItem startConsumer).2
        = [.lock, .resolve 4096, .unlock, .insert (some 1) "insert 'kernel/core.c'" false] :=
  ⟨workload_no_match goLib schedSym otherItem startConsumer (by decide) (by decide) (by decide)
    (by decide), by decide⟩

/-- C4: for a resolution item whose address has no candidate, whatever error
the symbolizer reported, the consumer makes exactly one database call, the
non-prepared one, with the item's template formatted with `"NONE"`. -/
theorem workload_none {σ : Type} (lib : Lib) (sym : Symbolizer σ) (e : workloads)
    (st : Consumer σ) (hs : e.Statement = none) (hn : e.Name ≠ "None")
    (hrs : (sym.Resolve st.a2l e.Addr).1.1 = []) :
    (workloadBody lib sym e st).2
        = [.lock, .resolve e.Addr, .unlock,
            .insert e.DB (lib.Sprintf e.Query [.str "NONE"]) false]
      ∧ dbCalls (workloadBody lib sym e st).2
        = [.insert e.DB (lib.Sprintf e.Query [.str "NONE"]) false] := by
  rw [workloadBody_resolution lib sym e st hs hn, hrs]
  simp [rangeLoop, dbCalls]

/-- Witness of C4: `0x9999` has no debug information. -/
theorem workload_none_witness :
    ((workloadBody goLib schedSym missingItem startConsumer).2
        = [.lock, .resolve missingItem.Addr, .unlock,
            .insert missingItem.DB (goLib.Sprintf missingItem.Query [.str "NONE"]) false]
      ∧ dbCalls (workloadBody goLib schedSym missingItem startConsumer).2
        = [.insert missingItem.DB (goLib.Sprintf missingItem.Query [.str "NONE"]) false])
      ∧ goLib.Sprintf missingItem.Query [.str "NONE"] = "insert 'NONE'" :=
  ⟨workload_none goLib schedSym missingItem startConsumer (by decide) (by decide) (by decide),
    by decide⟩

/-! ## The name compared with the candidates -/

/-- C10, as stated, fails in both of its cases. The name `sym.sym.f` starts
with `sym.`, and the string compared is `f`, not the name without its first
four characters; `x.sym.f` does not start with `sym.`, and the string compared
is `x.f`, not the name itself. With the name `sym.sym.f` the loop passes over
a candidate called `sym.f` and stops at one called `f`. -/
theorem wantedFunction_counterexample :
    (stripLeadingSym "sym.sym.f" = "sym.f" ∧ wantedFunction "sym.sym.f" = "f")
      ∧ (stripLeadingSym "x.sym.f" = "x.sym.f" ∧ wantedFunction "x.sym.f" = "x.f")
      ∧ rangeLoop goLib ⟨4096, "sym.sym.f", "insert '%s'", some 1, none, [], false⟩
          [⟨"a.c", 1, "sym.f"⟩, ⟨"b.c", 2, "f"⟩, ⟨"c.c", 3, "g"⟩] ""
        = ("insert 'b.c'", 2) := by
  decide

/-- C10 (amended): the string `workload` compares with each candidate's
`Function` is the requested name with every occurrence of `sym.` removed,
found scanning from the left: a leading `sym.` is dropped and the rest is
treated the same way, any other first character is kept and the rest is
treated the same way. It is the name with its leading `sym.` stripped exactly
when no `sym.` is left after that strip, and the name itself when the name
contains no `sym.`. -/
theorem wantedFunction_spec (n : String) :
    (wantedFunction n = stripLeadingSym n ↔ ¬ "sym.".data <:+: (stripLeadingSym n).data)
      ∧ (¬ "sym.".data <:+: n.data → wantedFunction n = n)
      ∧ (∀ r : List Char, n.data = "sym.".data ++ r → wantedFunction n = wantedFunction ⟨r⟩)
      ∧ (∀ c r, n.data = c :: r → ¬ "sym.".data <+: n.data →
          wantedFunction n = ⟨c :: (wantedFunction ⟨r⟩).data⟩)
      ∧ (n.data = [] → wantedFunction n = "") := by
  have hold : ['s', 'y', 'm', '.'] ≠ [] := List.cons_ne_nil _ _
  have hsym : "sym.".data = ['s', 'y', 'm', '.'] := rfl
  rw [hsym]
  refine ⟨?_, ?_, ?_, ?_, ?_⟩
  · rw [String.ext_iff, wantedFunction_data]
    unfold stripLeadingSym
    rw [hsym]
    split
    · rename_i hp
      rw [replaceAux_of_isPrefixOf _ hold _ hp]
      exact replaceAux_eq_self_iff _ hold _
    · exact replaceAux_eq_self_iff _ hold _
  · intro h
    rw [String.ext_iff, wantedFunction_data]
    exact (replaceAux_eq_self_iff _ hold _).mpr h
  · intro r h
    rw [String.ext_iff, wantedFunction_data, wantedFunction_data, h,
      replaceAux_of_isPrefixOf _ hold _ (by simp [List.isPrefixOf])]
    rfl
  · intro c r h hp
    rw [String.ext_iff, wantedFunction_data, wantedFunction_data, h]
    rw [h] at hp
    have hp2 : ¬ List.isPrefixOf ['s', 'y', 'm', '.'] (c :: r) = true := fun hq =>
      hp (List.isPrefixOf_iff_prefix.mp hq)
    rw [replaceAux, if_neg hp2]
  · intro h
    rw [String.ext_iff, wantedFunction_data, h]
    rfl

/-! ## `resolve_addr` -/

/-- C3: `resolve_addr` equals the reference definition of `resolve_to_string`
for every address, symbolizer and symbolizer error: `NONE` when the candidate
sequence is empty, else `<cleaned File>:<Line in decimal>` of the last
candidate; for a single candidate that is the candidate itself. -/
theorem resolve_addr_eq_reference {σ : Type} (clean : String → String) (sym : Symbolizer σ)
    (a2l : σ) (address : Nat) :
    (resolve_addr ⟨clean, Sprintf⟩ sym a2l address).1
        = resolve_to_string_ref clean (sym.Resolve a2l address).1.1
      ∧ ((sym.Resolve a2l address).1.1 = [] →
          (resolve_addr ⟨clean, Sprintf⟩ sym a2l address).1 = "NONE")
      ∧ (∀ a, (sym.Resolve a2l address).1.1 = [a] →
          (resolve_addr ⟨clean, Sprintf⟩ sym a2l address).1
            = clean a.File ++ ":" ++ decimal a.Line) := by
  have key : (resolve_addr ⟨clean, Sprintf⟩ sym a2l address).1
      = resolve_to_string_ref clean (sym.Resolve a2l address).1.1 := by
    simp only [resolve_addr, resolve_to_string_ref, resolveLoop_last]
    cases h : (sym.Resolve a2l address).1.1.getLast? with
    | none =>
      have hnil : (sym.Resolve a2l address).1.1 = [] := List.getLast?_eq_none_iff.mp h
      simp [hnil]
    | some a => simp [sprintf_file_line]
  refine ⟨key, ?_, ?_⟩
  · intro h
    rw [key, h]
    rfl
  · intro a h
    rw [key, h]
    rfl

/-! ## The queue -/

/-- C5: run on any list of dequeued items, from any state of the symbolizer
and any value of `qready`, `workload` makes exactly one database call per
item, in the order of the items; the call of an item is `callOf` of the item
and of the candidates the symbolizer answered for it, so nothing is carried
over through `qready`; and the calls of the items of a front part of the
queue all come before the calls of the rest. -/
theorem workload_one_call_per_item {σ : Type} (lib : Lib) (sym : Symbolizer σ)
    (items : List workloads) (st : Consumer σ) :
    dbCalls (workload lib sym items st).2 = expectedCalls lib sym st.a2l items
      ∧ (dbCalls (workload lib sym items st).2).length = items.length
      ∧ (∀ q, dbCalls (workload lib sym items ⟨st.a2l, q⟩).2
          = dbCalls (workload lib sym items st).2)
      ∧ (∀ xs ys, items = xs ++ ys →
          dbCalls (workload lib sym items st).2
            = dbCalls (workload lib sym xs st).2
              ++ dbCalls (workload lib sym ys (workload lib sym xs st).1).2) := by
  refine ⟨workload_calls_eq lib sym items st, ?_, ?_, ?_⟩
  · rw [workload_calls_eq, expectedCalls_length]
  · intro q
    rw [workload_calls_eq, workload_calls_eq]
  · intro xs ys h
    rw [h, workload_append, dbCalls_append]

/-- C6, as stated, fails for the nil statement handle: the item `spawn_stmt`
enqueues is then a raw-query item, and `workload` executes its empty query
through the non-prepared primitive instead of calling the prepared one. -/
theorem spawn_stmt_nil_counterexample :
    (workload goLib schedSym (spawn_stmt (some 1) none [] [.int 7] true) startConsumer).2
        = [.insert (some 1) "" false]
      ∧ (workload goLib schedSym (spawn_stmt (some 1) none [] [.int 7] true) startConsumer).2
        ≠ [.insert_prepared none [.int 7] true] := by
  decide

/-- C6 (amended): for every non-nil statement handle, argument sequence and
flag, `spawn_stmt` appends one item to the queue, and when `workload` reaches
it, after the items ahead of it, it makes one call, to the prepared-statement
primitive with that statement, those arguments and that flag; the symbolizer
is left as it was and no non-prepared call is made. -/
theorem spawn_stmt_prepared {σ : Type} (lib : Lib) (sym : Symbolizer σ) (db : Option DBHandle)
    (stmt : StmtHandle) (addresses : List workloads) (args : List GoValue) (closestmt : Bool)
    (st : Consumer σ) :
    spawn_stmt db (some stmt) addresses args closestmt
        = addresses ++ [⟨0, "None", "", db, some stmt, args, closestmt⟩]
      ∧ workload lib sym (spawn_stmt db (some stmt) addresses args closestmt) st
        = ((workload lib sym addresses st).1,
           (workload lib sym addresses st).2 ++ [.insert_prepared (some stmt) args closestmt]) := by
  refine ⟨rfl, ?_⟩
  rw [spawn_stmt, workload_append]
  simp [workload, workloadBody]

/-- C7: for every address and query template, `spawn_query` with the name
`"None"` appends one item to the queue, and when `workload` reaches it, after
the items ahead of it, it makes one call, to the non-prepared primitive with
the template itself; no formatting function is applied, the symbolizer is not
called and is left as it was, and the address appears nowhere in the call. -/
theorem spawn_query_none_verbatim {σ : Type} (lib : Lib) (sym : Symbolizer σ)
    (db : Option DBHandle) (addr : Nat) (addresses : List workloads) (query : String)
    (st : Consumer σ) :
    spawn_query db addr "None" addresses query
        = addresses ++ [⟨addr, "None", query, db, none, [], false⟩]
      ∧ workload lib sym (spawn_query db addr "None" addresses query) st
        = ((workload lib sym addresses st).1,
           (workload lib sym addresses st).2 ++ [.insert db query false]) := by
  refine ⟨rfl, ?_⟩
  rw [spawn_query, workload_append]
  simp [workload, workloadBody]

/-! ## `strip` -/

/-- C8: `strip` panics if and only if the executable is not found or it is
found and the command fails; when it is not found no command is launched; when
it is found exactly one command is launched, the executable with the
arguments `--strip-debug`, the input, `-o`, the output. -/
theorem strip_outcome (os : OS) (executable fn outfile : String) :
    ((strip os executable fn outfile).panicked ≠ none ↔
        (∃ err, os.LookPath executable = .error err)
          ∨ ((∃ path, os.LookPath executable = .ok path)
            ∧ os.Run ⟨executable, ["--strip-debug", fn, "-o", outfile]⟩ ≠ none))
      ∧ ((∃ err, os.LookPath executable = .error err) →
          (strip os executable fn outfile).launched = [])
      ∧ ((∃ path, os.LookPath executable = .ok path) →
          (strip os executable fn outfile).launched
            = [⟨executable, ["--strip-debug", fn, "-o", outfile]⟩]) := by
  unfold strip
  cases hl : os.LookPath executable with
  | error err => simp
  | ok path =>
    cases hr : os.Run ⟨executable, ["--strip-debug", fn, "-o", outfile]⟩ with
    | none => simp [hr]
    | some err => simp [hr]

end KernBinDb
